import Mathlib

/-!
Shallow embedding of titus/lib1/rand.py (the rand.* PFA library of Hadrian/Titus)
and proofs about it.

The Python module draws all randomness from one per-execution PRNG object
(state.rand, a Python random.Random).  We model that generator as an explicit
state: an abstract stream of raw natural-number draws together with a position
counter.  Every library function is embedded as a state-passing function
returning the produced value (or the raised error) together with the generator
state at the moment the call returns or raises.

Python floats are modelled exactly: a PyFloat is either a finite rational or
one of nan, +inf, -inf.  Machine rounding of float addition is not modelled;
the cumulative sums of the histogram are exact rational sums.

Errors: PFARuntimeException (the typed InvalidArgument taxonomy) is PyErr.pfa;
Python-level ValueError / IndexError / TypeError, which escape that taxonomy,
are the other constructors.
-/

/-- The per-execution PRNG state: an abstract stream of raw draws
(modelling the Mersenne-Twister outputs of Python's random.Random)
plus the number of draws consumed so far. -/
structure RandGen where
  stream : Nat → Nat
  pos : Nat

/-- Consume one raw draw from the generator. -/
def RandGen.next (g : RandGen) : Nat × RandGen :=
  (g.stream g.pos, ⟨g.stream, g.pos + 1⟩)

/-- The raw value of the next draw. -/
theorem RandGen.next_fst (g : RandGen) : g.next.1 = g.stream g.pos := rfl

/-- The generator state after the next draw. -/
theorem RandGen.next_snd (g : RandGen) : g.next.2 = ⟨g.stream, g.pos + 1⟩ := rfl

/-- Errors a rand.* call can surface: PFARuntimeException (the typed
InvalidArgument taxonomy of the engine) versus untyped Python-level errors. -/
inductive PyErr where
  | pfa (msg : String)
  | valueError (msg : String)
  | indexError (msg : String)
  | typeError (msg : String)
deriving DecidableEq, Repr

/-- A Python float: a finite rational, or nan, or an infinity. -/
inductive PyFloat where
  | finite (q : ℚ)
  | nan
  | inf
  | neginf
deriving DecidableEq, Repr

/-- math.isnan. -/
def PyFloat.isnan : PyFloat → Bool
  | .nan => true
  | _ => false

/-- math.isinf. -/
def PyFloat.isinf : PyFloat → Bool
  | .inf => true
  | .neginf => true
  | _ => false

/-- The Python comparison x < 0.0 (false on nan, as in IEEE). -/
def PyFloat.ltZero : PyFloat → Bool
  | .finite q => decide (q < 0)
  | .nan => false
  | .inf => false
  | .neginf => true

/-- The rational value of a finite PyFloat (0 on the non-finite ones,
which every caller below has already excluded). -/
def PyFloat.toRat : PyFloat → ℚ
  | .finite q => q
  | _ => 0

/-- Values produced by the rand.* library: ints/longs, floats/doubles,
strings and byte strings (as lists of code points / byte values), arrays,
records of the histogram record variant (payload plus its prob field),
and Python None (the histogram fall-through). -/
inductive Value where
  | int (i : ℤ)
  | float (q : ℚ)
  | str (cs : List Nat)
  | bytes (bs : List Nat)
  | arr (vs : List Value)
  | record (payload : Value) (prob : PyFloat)
  | none

/-- Python list indexing, including the negative-index wrap-around:
l[i] is l[len + i] for -len <= i < 0, and an IndexError outside. -/
def pyGet (l : List α) (i : ℤ) : Option α :=
  if 0 ≤ i then l.get? i.toNat
  else if -i ≤ (l.length : ℤ) then l.get? (l.length - (-i).toNat) else Option.none

/-- random.randint(a, b): validates the range (Python raises ValueError on an
empty range, before consuming any state) and otherwise maps one raw draw
uniformly onto the inclusive range [a, b]. -/
def randint (a b : ℤ) (g : RandGen) : (Except PyErr ℤ) × RandGen :=
  if b < a then (.error (.valueError "empty range for randrange"), g)
  else
    let (n, g') := g.next
    (.ok (a + (n : ℤ) % (b - a + 1)), g')

/-- random.random(): a 53-bit fraction n / 2^53 in [0, 1), modelled exactly. -/
def pyRandom (g : RandGen) : ℚ × RandGen :=
  let (n, g') := g.next
  (((n % 2 ^ 53 : ℕ) : ℚ) / 2 ^ 53, g')

/-- random.uniform(a, b) = a + (b - a) * random(). -/
def uniform (a b : ℚ) (g : RandGen) : ℚ × RandGen :=
  let (r, g') := pyRandom g
  (a + (b - a) * r, g')

/-- random.getrandbits(k): k fresh random bits. -/
def getrandbits (k : ℕ) (g : RandGen) : ℕ × RandGen :=
  let (n, g') := g.next
  (n % 2 ^ k, g')

/-- Remove the element at position j, returning it and the remaining list. -/
def pickAt : List α → ℕ → Option (α × List α)
  | [], _ => Option.none
  | x :: xs, 0 => some (x, xs)
  | x :: xs, j+1 =>
    match pickAt xs j with
    | Option.none => Option.none
    | some (y, rest) => some (y, x :: rest)

/-- Modelled from the Python standard library contract of random.sample's
selection loop: size times, draw a position among the remaining elements and
remove the element there (selection without replacement over positions). -/
def sampleAux : List α → ℕ → RandGen → List α × RandGen
  | _, 0, g => ([], g)
  | pop, k+1, g =>
    match pickAt pop (g.next.1 % pop.length) with
    | Option.none => ([], g.next.2)
    | some (x, rest) =>
      let res := sampleAux rest k g.next.2
      (x :: res.1, res.2)

/-- random.sample(population, k): ValueError when k is negative or exceeds the
population (the library's own guard), else k selections without replacement. -/
def pySample (population : List α) (k : ℤ) (g : RandGen) :
    (Except PyErr (List α)) × RandGen :=
  if k < 0 ∨ (population.length : ℤ) < k then
    (.error (.valueError "sample larger than population or is negative"), g)
  else
    let (l, g') := sampleAux population k.toNat g
    (.ok l, g')

/-- Repeat a fallible draw k times, collecting the results; the first error
aborts the loop (as the generator expression inside str.join does). -/
def repDraw (f : RandGen → (Except PyErr α) × RandGen) :
    ℕ → RandGen → (Except PyErr (List α)) × RandGen
  | 0, g => (.ok [], g)
  | k+1, g =>
    match f g with
    | (.error e, g') => (.error e, g')
    | (.ok x, g') =>
      match repDraw f k g' with
      | (.error e, g'') => (.error e, g'')
      | (.ok xs, g'') => (.ok (x :: xs), g'')

/-- One draw of the pattern population[state.rand.randint(0, len(population) - 1)]
shared by rand.choice, rand.choices and the population forms of
rand.string / rand.bytes. -/
def drawElem (population : List α) (g : RandGen) : (Except PyErr α) × RandGen :=
  match randint 0 ((population.length : ℤ) - 1) g with
  | (.error e, g') => (.error e, g')
  | (.ok i, g') =>
    match pyGet population i with
    | some x => (.ok x, g')
    | Option.none => (.error (.indexError "list index out of range"), g')

/-- Python 2 unichr: valid for code points 0 .. 0x10FFFF, ValueError outside. -/
def unichrE (i : ℤ) : Except PyErr ℕ :=
  if 0 ≤ i ∧ i ≤ 1114111 then .ok i.toNat
  else .error (.valueError "unichr arg not in range")

/-- Python 2 chr: valid for 0 .. 255, ValueError outside. -/
def chrE (i : ℤ) : Except PyErr ℕ :=
  if 0 ≤ i ∧ i ≤ 255 then .ok i.toNat
  else .error (.valueError "chr arg not in range")

/-- One draw of the pattern unichr(state.rand.randint(a, b)). -/
def drawUnichr (a b : ℤ) (g : RandGen) : (Except PyErr ℕ) × RandGen :=
  match randint a b g with
  | (.error e, g') => (.error e, g')
  | (.ok i, g') =>
    match unichrE i with
    | .ok c => (.ok c, g')
    | .error e => (.error e, g')

/-- One draw of the pattern chr(state.rand.randint(a, b)). -/
def drawChr (a b : ℤ) (g : RandGen) : (Except PyErr ℕ) × RandGen :=
  match randint a b g with
  | (.error e, g') => (.error e, g')
  | (.ok i, g') =>
    match chrE i with
    | .ok c => (.ok c, g')
    | .error e => (.error e, g')

/-! The embedded rand.* library functions, one per class in rand.py.
INT/LONG bounds are the constants imported from titus.lib1.core. -/

def INT_MIN_VALUE : ℤ := -(2 ^ 31)
def INT_MAX_VALUE : ℤ := 2 ^ 31 - 1
def LONG_MIN_VALUE : ℤ := -(2 ^ 63)
def LONG_MAX_VALUE : ℤ := 2 ^ 63 - 1

/-- rand.int() with no arguments: uniform over the full int32 range. -/
def randomInt0 (g : RandGen) : (Except PyErr Value) × RandGen :=
  match randint INT_MIN_VALUE INT_MAX_VALUE g with
  | (.ok v, g') => (.ok (.int v), g')
  | (.error e, g') => (.error e, g')

/-- rand.int(low, high): guard high <= low, then
randint(low, high - 1) (Python randint has an inclusive upper bound). -/
def randomInt2 (low high : ℤ) (g : RandGen) : (Except PyErr Value) × RandGen :=
  if high ≤ low then (.error (.pfa "high must be greater than low"), g)
  else
    match randint low (high - 1) g with
    | (.ok v, g') => (.ok (.int v), g')
    | (.error e, g') => (.error e, g')

/-- rand.long() with no arguments: uniform over the full int64 range. -/
def randomLong0 (g : RandGen) : (Except PyErr Value) × RandGen :=
  match randint LONG_MIN_VALUE LONG_MAX_VALUE g with
  | (.ok v, g') => (.ok (.int v), g')
  | (.error e, g') => (.error e, g')

/-- rand.long(low, high): guard high <= low, then randint(low, high - 1). -/
def randomLong2 (low high : ℤ) (g : RandGen) : (Except PyErr Value) × RandGen :=
  if high ≤ low then (.error (.pfa "high must be greater than low"), g)
  else
    match randint low (high - 1) g with
    | (.ok v, g') => (.ok (.int v), g')
    | (.error e, g') => (.error e, g')

/-- rand.float(low, high): guard high <= low, then uniform(low, high). -/
def randomFloat (low high : ℚ) (g : RandGen) : (Except PyErr Value) × RandGen :=
  if high ≤ low then (.error (.pfa "high must be greater than low"), g)
  else
    let (x, g') := uniform low high g
    (.ok (.float x), g')

/-- rand.double(low, high): identical body to rand.float. -/
def randomDouble (low high : ℚ) (g : RandGen) : (Except PyErr Value) × RandGen :=
  if high ≤ low then (.error (.pfa "high must be greater than low"), g)
  else
    let (x, g') := uniform low high g
    (.ok (.float x), g')

/-- rand.choice(population). -/
def randomChoice (population : List Value) (g : RandGen) :
    (Except PyErr Value) × RandGen :=
  if population.length = 0 then (.error (.pfa "population must not be empty"), g)
  else
    match drawElem population g with
    | (.ok x, g') => (.ok x, g')
    | (.error e, g') => (.error e, g')

/-- rand.choices(size, population): size draws with replacement
(xrange(size) is empty for a non-positive size, as in Python). -/
def randomChoices (size : ℤ) (population : List Value) (g : RandGen) :
    (Except PyErr Value) × RandGen :=
  if population.length = 0 then (.error (.pfa "population must not be empty"), g)
  else
    match repDraw (drawElem population) size.toNat g with
    | (.ok xs, g') => (.ok (.arr xs), g')
    | (.error e, g') => (.error e, g')

/-- rand.sample(size, population): guards, then random.sample. -/
def randomSample (size : ℤ) (population : List Value) (g : RandGen) :
    (Except PyErr Value) × RandGen :=
  if population.length = 0 then (.error (.pfa "population must not be empty"), g)
  else if (population.length : ℤ) < size then
    (.error (.pfa "population smaller than requested subsample"), g)
  else
    match pySample population size g with
    | (.ok xs, g') => (.ok (.arr xs), g')
    | (.error e, g') => (.error e, g')

/-- The cumulative-sum list of RandomHistogram.selectIndex: starts at the
accumulator (0.0 at the top call) and appends the running sums, so it is one
element longer than the distribution. -/
def cumSumFrom (acc : ℚ) : List ℚ → List ℚ
  | [] => [acc]
  | x :: xs => acc :: cumSumFrom (acc + x) xs

/-- The last element of a list (Python l[-1]), with a default for the empty
list, which never occurs at the call site below. -/
def lastD (d : ℚ) : List ℚ → ℚ
  | [] => d
  | [x] => x
  | _ :: x :: xs => lastD d (x :: xs)

/-- The selection loop of RandomHistogram.selectIndex: the first index i of
the cumulative list with position < cumulativeSum[i] yields i - 1; falling
off the end yields Python None. -/
def histLoop (position : ℚ) : List ℚ → ℤ → Option ℤ
  | [], _ => Option.none
  | y :: ys, i => if position < y then some (i - 1) else histLoop position ys (i + 1)

/-- RandomHistogram.selectIndex: validate finiteness, then non-negativity,
build cumulative sums, reject total 0, draw uniform(0, total), and run the
selection loop. -/
def selectIndex (distribution : List PyFloat) (g : RandGen) :
    (Except PyErr (Option ℤ)) × RandGen :=
  if distribution.any (fun x => x.isnan || x.isinf) then
    (.error (.pfa "distribution must be finite"), g)
  else if distribution.any (fun x => x.ltZero) then
    (.error (.pfa "distribution must be non-negative"), g)
  else
    let cs := cumSumFrom 0 (distribution.map PyFloat.toRat)
    let total := lastD 0 cs
    if total = 0 then (.error (.pfa "distribution must be non-empty"), g)
    else
      let (position, g') := uniform 0 total g
      (.ok (histLoop position cs 0), g')

/-- rand.histogram over plain numbers: returns the selected index
(Python None if the loop were ever to fall through). -/
def randomHistogram (distribution : List PyFloat) (g : RandGen) :
    (Except PyErr Value) × RandGen :=
  match selectIndex distribution g with
  | (.ok (some i), g') => (.ok (.int i), g')
  | (.ok Option.none, g') => (.ok .none, g')
  | (.error e, g') => (.error e, g')

/-- rand.histogram over records with a prob field (modelled as payload-prob
pairs): selects an index from the prob column and returns distribution[index],
with Python indexing semantics (a None index is a TypeError). -/
def randomHistogramRec (distribution : List (Value × PyFloat)) (g : RandGen) :
    (Except PyErr Value) × RandGen :=
  match selectIndex (distribution.map Prod.snd) g with
  | (.error e, g') => (.error e, g')
  | (.ok Option.none, g') => (.error (.typeError "list indices must be integers"), g')
  | (.ok (some i), g') =>
    match pyGet distribution i with
    | Option.none => (.error (.indexError "list index out of range"), g')
    | some x => (.ok (.record x.1 x.2), g')

/-- rand.string(size): size characters unichr(randint(1, 0xD800)) — the
inclusive upper bound is the code point 0xD800 itself. -/
def randomString1 (size : ℤ) (g : RandGen) : (Except PyErr Value) × RandGen :=
  if size ≤ 0 then (.error (.pfa "size must be positive"), g)
  else
    match repDraw (drawUnichr 1 55296) size.toNat g with
    | (.ok cs, g') => (.ok (.str cs), g')
    | (.error e, g') => (.error e, g')

/-- rand.string(size, population): size characters
population[randint(0, len(population) - 1)] with no empty-population guard. -/
def randomString2 (size : ℤ) (population : List Nat) (g : RandGen) :
    (Except PyErr Value) × RandGen :=
  if size ≤ 0 then (.error (.pfa "size must be positive"), g)
  else
    match repDraw (drawElem population) size.toNat g with
    | (.ok cs, g') => (.ok (.str cs), g')
    | (.error e, g') => (.error e, g')

/-- rand.string(size, low, high): guard high <= low, then size characters
unichr(randint(low, high - 1)). -/
def randomString3 (size low high : ℤ) (g : RandGen) :
    (Except PyErr Value) × RandGen :=
  if size ≤ 0 then (.error (.pfa "size must be positive"), g)
  else if high ≤ low then (.error (.pfa "high must be greater than low"), g)
  else
    match repDraw (drawUnichr low (high - 1)) size.toNat g with
    | (.ok cs, g') => (.ok (.str cs), g')
    | (.error e, g') => (.error e, g')

/-- rand.bytes(size): size bytes chr(randint(0, 255)). -/
def randomBytes1 (size : ℤ) (g : RandGen) : (Except PyErr Value) × RandGen :=
  if size ≤ 0 then (.error (.pfa "size must be positive"), g)
  else
    match repDraw (drawChr 0 255) size.toNat g with
    | (.ok bs, g') => (.ok (.bytes bs), g')
    | (.error e, g') => (.error e, g')

/-- rand.bytes(size, population): like the string population form. -/
def randomBytes2 (size : ℤ) (population : List Nat) (g : RandGen) :
    (Except PyErr Value) × RandGen :=
  if size ≤ 0 then (.error (.pfa "size must be positive"), g)
  else
    match repDraw (drawElem population) size.toNat g with
    | (.ok bs, g') => (.ok (.bytes bs), g')
    | (.error e, g') => (.error e, g')

/-- rand.bytes(size, low, high): guard high <= low, then chr(randint(low, high - 1)). -/
def randomBytes3 (size low high : ℤ) (g : RandGen) :
    (Except PyErr Value) × RandGen :=
  if size ≤ 0 then (.error (.pfa "size must be positive"), g)
  else if high ≤ low then (.error (.pfa "high must be greater than low"), g)
  else
    match repDraw (drawChr low (high - 1)) size.toNat g with
    | (.ok bs, g') => (.ok (.bytes bs), g')
    | (.error e, g') => (.error e, g')

/-- Hex digit d (0..15) as the code point of its lowercase hex character. -/
def hexDigitChar (d : ℕ) : ℕ := if d < 10 then 48 + d else 87 + d

/-- Python format spec {0:0wx}: lowercase hex, zero-padded on the left to
width w (exactly width w whenever n < 16^w). -/
def hexPad (w n : ℕ) : List ℕ :=
  let ds := Nat.digits 16 n
  ((ds ++ List.replicate (w - ds.length) 0).reverse).map hexDigitChar

/-- rand.uuid(): format 32+16+12+12+64 fresh random bits as
8 hex digits, a hyphen, 4 hex digits, a hyphen, the fixed character 4 and
3 hex digits, a hyphen, the fixed character 8 and 3 hex digits, a hyphen,
16 hex digits (code points: hyphen 45, the digit 4 is 52, the digit 8 is 56). -/
def randomUUID (g : RandGen) : (Except PyErr Value) × RandGen :=
  let (a, g1) := getrandbits 32 g
  let (b, g2) := getrandbits 16 g1
  let (c, g3) := getrandbits 12 g2
  let (d, g4) := getrandbits 12 g3
  let (e, g5) := getrandbits 64 g4
  (.ok (.str (hexPad 8 a ++ 45 :: (hexPad 4 b ++ 45 :: 52 ::
    (hexPad 3 c ++ 45 :: 56 :: (hexPad 3 d ++ 45 :: hexPad 16 e))))), g5)

/-- Modelled from the Python standard library contract of random.gauss: a
deterministic function of the generator state that consumes draws and returns
mu + sigma * (a zero-centred combination of the draws).  The transcendental
Box-Muller transform is not representable over ℚ; only the state threading
and determinism of the library call are modelled. -/
def gauss (mu sigma : ℚ) (g : RandGen) : ℚ × RandGen :=
  let (r1, g1) := pyRandom g
  let (r2, g2) := pyRandom g1
  (mu + sigma * (r1 + r2 - 1), g2)

/-- rand.gaussian(mu, sigma). -/
def randomGaussian (mu sigma : ℚ) (g : RandGen) : (Except PyErr Value) × RandGen :=
  let (x, g') := gauss mu sigma g
  (.ok (.float x), g')

/-- One call to a rand.* library function, with its arguments. -/
inductive RandCall where
  | rInt0
  | rInt2 (low high : ℤ)
  | rLong0
  | rLong2 (low high : ℤ)
  | rFloat (low high : ℚ)
  | rDouble (low high : ℚ)
  | rChoice (population : List Value)
  | rChoices (size : ℤ) (population : List Value)
  | rSample (size : ℤ) (population : List Value)
  | rHistogram (distribution : List PyFloat)
  | rHistogramRec (distribution : List (Value × PyFloat))
  | rString1 (size : ℤ)
  | rString2 (size : ℤ) (population : List Nat)
  | rString3 (size low high : ℤ)
  | rBytes1 (size : ℤ)
  | rBytes2 (size : ℤ) (population : List Nat)
  | rBytes3 (size low high : ℤ)
  | rUuid
  | rGaussian (mu sigma : ℚ)

/-- Dispatch one rand.* call against the execution context's generator. -/
def applyCall : RandCall → RandGen → (Except PyErr Value) × RandGen
  | .rInt0, g => randomInt0 g
  | .rInt2 low high, g => randomInt2 low high g
  | .rLong0, g => randomLong0 g
  | .rLong2 low high, g => randomLong2 low high g
  | .rFloat low high, g => randomFloat low high g
  | .rDouble low high, g => randomDouble low high g
  | .rChoice population, g => randomChoice population g
  | .rChoices size population, g => randomChoices size population g
  | .rSample size population, g => randomSample size population g
  | .rHistogram distribution, g => randomHistogram distribution g
  | .rHistogramRec distribution, g => randomHistogramRec distribution g
  | .rString1 size, g => randomString1 size g
  | .rString2 size population, g => randomString2 size population g
  | .rString3 size low high, g => randomString3 size low high g
  | .rBytes1 size, g => randomBytes1 size g
  | .rBytes2 size population, g => randomBytes2 size population g
  | .rBytes3 size low high, g => randomBytes3 size low high g
  | .rUuid, g => randomUUID g
  | .rGaussian mu sigma, g => randomGaussian mu sigma g

/-- Run a sequence of rand.* calls against one execution context, collecting
the outputs in order. -/
def runCalls : List RandCall → RandGen → List (Except PyErr Value) × RandGen
  | [], g => ([], g)
  | c :: cs, g =>
    let (r, g') := applyCall c g
    let (rs, g'') := runCalls cs g'
    (r :: rs, g'')

/-- Whether a call outcome is an error. -/
def isErr : Except PyErr α → Bool
  | .error _ => true
  | .ok _ => false

/-! Basic lemmas about the generator primitives. -/

theorem randint_ok {a b : ℤ} (h : a ≤ b) (g : RandGen) :
    randint a b g =
      (.ok (a + (g.stream g.pos : ℤ) % (b - a + 1)), ⟨g.stream, g.pos + 1⟩) := by
  simp [randint, RandGen.next, if_neg (not_lt.mpr h)]

theorem randint_bounds {a b : ℤ} (h : a ≤ b) (g : RandGen) :
    ∃ v, randint a b g = (.ok v, ⟨g.stream, g.pos + 1⟩) ∧ a ≤ v ∧ v ≤ b := by
  refine ⟨_, randint_ok h g, ?_, ?_⟩
  · have h0 : 0 ≤ (g.stream g.pos : ℤ) % (b - a + 1) := Int.emod_nonneg _ (by omega)
    omega
  · have h1 : (g.stream g.pos : ℤ) % (b - a + 1) < b - a + 1 :=
      Int.emod_lt_of_pos _ (by omega)
    omega

theorem pyRandom_bounds (g : RandGen) :
    0 ≤ (pyRandom g).1 ∧ (pyRandom g).1 < 1 := by
  show 0 ≤ ((g.stream g.pos % 2 ^ 53 : ℕ) : ℚ) / 2 ^ 53 ∧
    ((g.stream g.pos % 2 ^ 53 : ℕ) : ℚ) / 2 ^ 53 < 1
  constructor
  · positivity
  · rw [div_lt_one (by positivity)]
    exact_mod_cast Nat.mod_lt _ (by positivity)

theorem uniform_fst (a b : ℚ) (g : RandGen) :
    (uniform a b g).1 = a + (b - a) * (pyRandom g).1 := rfl

theorem uniform_snd (a b : ℚ) (g : RandGen) :
    (uniform a b g).2 = ⟨g.stream, g.pos + 1⟩ := rfl

theorem uniform_bounds {a b : ℚ} (h : a < b) (g : RandGen) :
    a ≤ (uniform a b g).1 ∧ (uniform a b g).1 < b := by
  obtain ⟨h0, h1⟩ := pyRandom_bounds g
  rw [uniform_fst]
  constructor
  · nlinarith
  · nlinarith

/-! Lemmas about the cumulative-sum list and the selection loop. -/

theorem cumSumFrom_eq_cons (a : ℚ) (l : List ℚ) : ∃ t, cumSumFrom a l = a :: t := by
  cases l <;> simp [cumSumFrom]

theorem length_cumSumFrom (l : List ℚ) : ∀ a, (cumSumFrom a l).length = l.length + 1 := by
  induction l with
  | nil => intro a; simp [cumSumFrom]
  | cons x xs ih => intro a; simp [cumSumFrom, ih]

theorem lastD_cons_cons (d x y : ℚ) (l : List ℚ) :
    lastD d (x :: y :: l) = lastD d (y :: l) := rfl

theorem lastD_cumSumFrom (l : List ℚ) : ∀ a, lastD 0 (cumSumFrom a l) = a + l.sum := by
  induction l with
  | nil => intro a; simp [cumSumFrom, lastD]
  | cons x xs ih =>
    intro a
    obtain ⟨t, ht⟩ := cumSumFrom_eq_cons (a + x) xs
    rw [show cumSumFrom a (x :: xs) = a :: cumSumFrom (a + x) xs from rfl, ht,
      lastD_cons_cons, ← ht, ih]
    simp [List.sum_cons]
    ring

theorem lastD_mem (d : ℚ) : ∀ (l : List ℚ), l ≠ [] → lastD d l ∈ l := by
  intro l
  induction l with
  | nil => intro h; exact absurd rfl h
  | cons x xs ih =>
    intro _
    cases xs with
    | nil => simp [lastD]
    | cons y ys =>
      rw [lastD_cons_cons]
      exact List.mem_cons_of_mem x (ih (by simp))

/-- The selection loop, characterized: whenever some cumulative entry exceeds
the position, the loop stops at the first such entry (index j in the
cumulative list) and returns i + j - 1. -/
theorem histLoop_spec (pos : ℚ) :
    ∀ (cs : List ℚ) (i : ℤ), (∃ y ∈ cs, pos < y) →
      ∃ j : ℕ, j < cs.length ∧ histLoop pos cs i = some (i + j - 1) ∧
        pos < cs.getD j 0 ∧ ∀ j' < j, cs.getD j' 0 ≤ pos := by
  intro cs
  induction cs with
  | nil => intro i h; simp at h
  | cons y ys ih =>
    intro i h
    by_cases hy : pos < y
    · refine ⟨0, by simp, ?_, by simpa using hy, by omega⟩
      simp [histLoop, hy]
    · have h' : ∃ z ∈ ys, pos < z := by
        obtain ⟨z, hz, hpz⟩ := h
        rcases List.mem_cons.mp hz with rfl | hz'
        · exact absurd hpz hy
        · exact ⟨z, hz', hpz⟩
      obtain ⟨j, hj, hloop, hlt, hall⟩ := ih (i + 1) h'
      refine ⟨j + 1, by simpa using hj, ?_, by simpa using hlt, ?_⟩
      · rw [show histLoop pos (y :: ys) i = histLoop pos ys (i + 1) by
          simp [histLoop, hy], hloop]
        congr 1
        omega
      · intro j' hj'
        cases j' with
        | zero => simpa using not_lt.mp hy
        | succ j'' =>
          have := hall j'' (by omega)
          simpa using this

/-! The success path of selectIndex on finite, non-negative distributions. -/

theorem selectIndex_ok (ws : List ℚ) (g : RandGen)
    (hnn : ∀ w ∈ ws, 0 ≤ w) (hpos : 0 < ws.sum) :
    selectIndex (ws.map PyFloat.finite) g =
      (.ok (histLoop (uniform 0 ws.sum g).1 (cumSumFrom 0 ws) 0),
        (uniform 0 ws.sum g).2) := by
  have h1 : (ws.map PyFloat.finite).any (fun x => x.isnan || x.isinf) = false := by
    simp [List.any_map, Function.comp, PyFloat.isnan, PyFloat.isinf]
  have h2 : (ws.map PyFloat.finite).any (fun x => x.ltZero) = false := by
    rw [List.any_eq_false]
    intro x hx
    obtain ⟨q, hq, rfl⟩ := List.mem_map.mp hx
    simpa [PyFloat.ltZero] using not_lt.mpr (hnn q hq)
  have h3 : (ws.map PyFloat.finite).map PyFloat.toRat = ws := by
    rw [List.map_map, show PyFloat.toRat ∘ PyFloat.finite = id from funext fun q => rfl,
      List.map_id]
  unfold selectIndex
  rw [h1, h2]
  simp only [Bool.false_eq_true, if_false, h3]
  rw [lastD_cumSumFrom ws 0, zero_add, if_neg (ne_of_gt hpos)]

/-- C1: for every finite, non-negative weight list with positive total,
rand.histogram builds the cumulative sums starting at 0, draws a uniform
position in the half-open interval from 0 to the total, and returns the
smallest index i with position < cumulativeSum[i + 1]; in particular on
distribution [1, 1, 2] a draw landing exactly at position 1 selects index 1
(realized by the raw draw 2^51, which maps to position 1) and a draw at
position 0 selects index 0. -/
theorem C1_histogram_cumulative_tie_break (ws : List ℚ) (g : RandGen)
    (hnn : ∀ w ∈ ws, 0 ≤ w) (hpos : 0 < ws.sum) :
    (∃ i : ℕ, i < ws.length ∧
      selectIndex (ws.map PyFloat.finite) g =
        (.ok (some (i : ℤ)), (uniform 0 ws.sum g).2) ∧
      0 ≤ (uniform 0 ws.sum g).1 ∧ (uniform 0 ws.sum g).1 < ws.sum ∧
      (uniform 0 ws.sum g).1 < (cumSumFrom 0 ws).getD (i + 1) 0 ∧
      ∀ i' : ℕ, i' < i →
        (cumSumFrom 0 ws).getD (i' + 1) 0 ≤ (uniform 0 ws.sum g).1) ∧
    (selectIndex ([1, 1, 2].map PyFloat.finite) ⟨fun _ => 2 ^ 51, 0⟩).1 =
      .ok (some 1) ∧
    (uniform 0 4 ⟨fun _ => 2 ^ 51, 0⟩).1 = 1 ∧
    (selectIndex ([1, 1, 2].map PyFloat.finite) ⟨fun _ => 0, 0⟩).1 =
      .ok (some 0) ∧
    (uniform 0 4 ⟨fun _ => 0, 0⟩).1 = 0 := by
  have hval1 : (uniform 0 4 (⟨fun _ => 2 ^ 51, 0⟩ : RandGen)).1 = 1 := by
    rw [uniform_fst]
    show (0 : ℚ) + (4 - 0) * (((2 ^ 51 % 2 ^ 53 : ℕ) : ℚ) / 2 ^ 53) = 1
    rw [Nat.mod_eq_of_lt (by norm_num)]
    norm_num
  have hval0 : (uniform 0 4 (⟨fun _ => 0, 0⟩ : RandGen)).1 = 0 := by
    rw [uniform_fst]
    show (0 : ℚ) + (4 - 0) * (((0 % 2 ^ 53 : ℕ) : ℚ) / 2 ^ 53) = 0
    norm_num
  have hnn3 : ∀ w ∈ ([1, 1, 2] : List ℚ), 0 ≤ w := by
    intro w hw
    simp only [List.mem_cons, List.not_mem_nil, or_false] at hw
    rcases hw with rfl | rfl | rfl <;> norm_num
  have hsum3 : ([1, 1, 2] : List ℚ).sum = 4 := by norm_num
  have hpos3 : (0 : ℚ) < ([1, 1, 2] : List ℚ).sum := by rw [hsum3]; norm_num
  have hcs3 : cumSumFrom 0 ([1, 1, 2] : List ℚ) = [0, 1, 2, 4] := by
    norm_num [cumSumFrom]
  refine ⟨?gen, ?i1, hval1, ?i2, hval0⟩
  case i1 =>
    rw [selectIndex_ok [1, 1, 2] _ hnn3 hpos3]
    simp only [hsum3, hval1, hcs3]
    norm_num [histLoop]
  case i2 =>
    rw [selectIndex_ok [1, 1, 2] _ hnn3 hpos3]
    simp only [hsum3, hval0, hcs3]
    norm_num [histLoop]
  obtain ⟨hp0, hp1⟩ := uniform_bounds hpos g
  set pos := (uniform 0 ws.sum g).1 with hpos_def
  have hmem : ∃ y ∈ cumSumFrom 0 ws, pos < y := by
    refine ⟨lastD 0 (cumSumFrom 0 ws), lastD_mem 0 _ ?_, ?_⟩
    · obtain ⟨t, ht⟩ := cumSumFrom_eq_cons 0 ws
      simp [ht]
    · rw [lastD_cumSumFrom ws 0, zero_add]
      exact hp1
  obtain ⟨j, hj, hloop, hlt, hall⟩ := histLoop_spec pos (cumSumFrom 0 ws) 0 hmem
  have hj1 : 1 ≤ j := by
    by_contra hc
    have hj0 : j = 0 := by omega
    obtain ⟨t, ht⟩ := cumSumFrom_eq_cons 0 ws
    rw [hj0, ht] at hlt
    simp at hlt
    exact absurd hlt (not_lt.mpr hp0)
  refine ⟨j - 1, ?_, ?_, hp0, hp1, ?_, ?_⟩
  · have hlen : (cumSumFrom 0 ws).length = ws.length + 1 := length_cumSumFrom ws 0
    omega
  · have hjj : (0 : ℤ) + (j : ℤ) - 1 = ((j - 1 : ℕ) : ℤ) := by omega
    rw [selectIndex_ok ws g hnn hpos, hloop, hjj]
  · have : j - 1 + 1 = j := by omega
    rw [this]
    exact hlt
  · intro i' hi'
    exact hall (i' + 1) (by omega)

/-! Branch equations for selectIndex, one per validation outcome. -/

theorem selectIndex_err_finite {dist : List PyFloat} {g : RandGen}
    (h : dist.any (fun x => x.isnan || x.isinf) = true) :
    selectIndex dist g = (.error (.pfa "distribution must be finite"), g) := by
  unfold selectIndex
  simp [h]

theorem selectIndex_err_nonneg {dist : List PyFloat} {g : RandGen}
    (h1 : dist.any (fun x => x.isnan || x.isinf) = false)
    (h2 : dist.any (fun x => x.ltZero) = true) :
    selectIndex dist g = (.error (.pfa "distribution must be non-negative"), g) := by
  unfold selectIndex
  simp [h1, h2]

theorem selectIndex_err_empty {dist : List PyFloat} {g : RandGen}
    (h1 : dist.any (fun x => x.isnan || x.isinf) = false)
    (h2 : dist.any (fun x => x.ltZero) = false)
    (h3 : (dist.map PyFloat.toRat).sum = 0) :
    selectIndex dist g = (.error (.pfa "distribution must be non-empty"), g) := by
  unfold selectIndex
  rw [h1, h2]
  simp only [Bool.false_eq_true, if_false]
  rw [lastD_cumSumFrom (dist.map PyFloat.toRat) 0, zero_add, if_pos h3]

theorem selectIndex_ok_of {dist : List PyFloat} {g : RandGen}
    (h1 : dist.any (fun x => x.isnan || x.isinf) = false)
    (h2 : dist.any (fun x => x.ltZero) = false)
    (h3 : (dist.map PyFloat.toRat).sum ≠ 0) :
    selectIndex dist g =
      (.ok (histLoop (uniform 0 (dist.map PyFloat.toRat).sum g).1
        (cumSumFrom 0 (dist.map PyFloat.toRat)) 0),
        (uniform 0 (dist.map PyFloat.toRat).sum g).2) := by
  unfold selectIndex
  rw [h1, h2]
  simp only [Bool.false_eq_true, if_false]
  rw [lastD_cumSumFrom (dist.map PyFloat.toRat) 0, zero_add, if_neg h3]

theorem selectIndex_err_state {dist : List PyFloat} {g : RandGen} {e : PyErr}
    (h : (selectIndex dist g).1 = .error e) : (selectIndex dist g).2 = g := by
  by_cases h1 : dist.any (fun x => x.isnan || x.isinf) = true
  · rw [selectIndex_err_finite h1]
  · have h1' : dist.any (fun x => x.isnan || x.isinf) = false := by
      simpa using h1
    by_cases h2 : dist.any (fun x => x.ltZero) = true
    · rw [selectIndex_err_nonneg h1' h2]
    · have h2' : dist.any (fun x => x.ltZero) = false := by simpa using h2
      by_cases h3 : (dist.map PyFloat.toRat).sum = 0
      · rw [selectIndex_err_empty h1' h2' h3]
      · rw [selectIndex_ok_of h1' h2' h3] at h
        exact absurd h (by simp)

/-- C5: rand.histogram raises InvalidArgument exactly when the distribution
contains a non-finite weight, contains a negative weight, or sums to zero
(the empty distribution included); the checks fire in that order, producing
the reasons distribution-must-be-finite and distribution-must-be-non-negative
for the first two, and the total-zero check fires only when the first two
pass. -/
theorem C5_histogram_error_taxonomy (dist : List PyFloat) (g : RandGen) :
    (isErr (selectIndex dist g).1 = true ↔
      (∃ x ∈ dist, x.isnan = true ∨ x.isinf = true) ∨
      (∃ x ∈ dist, x.ltZero = true) ∨ (dist.map PyFloat.toRat).sum = 0) ∧
    ((∃ x ∈ dist, x.isnan = true ∨ x.isinf = true) →
      (selectIndex dist g).1 = .error (.pfa "distribution must be finite")) ∧
    ((¬ ∃ x ∈ dist, x.isnan = true ∨ x.isinf = true) →
      (∃ x ∈ dist, x.ltZero = true) →
      (selectIndex dist g).1 = .error (.pfa "distribution must be non-negative")) ∧
    ((¬ ∃ x ∈ dist, x.isnan = true ∨ x.isinf = true) →
      (¬ ∃ x ∈ dist, x.ltZero = true) →
      (dist.map PyFloat.toRat).sum = 0 →
      (selectIndex dist g).1 = .error (.pfa "distribution must be non-empty")) := by
  have hiff1 : dist.any (fun x => x.isnan || x.isinf) = true ↔
      ∃ x ∈ dist, x.isnan = true ∨ x.isinf = true := by
    simp [List.any_eq_true]
  have hiff2 : dist.any (fun x => x.ltZero) = true ↔ ∃ x ∈ dist, x.ltZero = true := by
    simp [List.any_eq_true]
  by_cases h1 : dist.any (fun x => x.isnan || x.isinf) = true
  · have hex := hiff1.mp h1
    have herr : (selectIndex dist g).1 = .error (.pfa "distribution must be finite") := by
      rw [selectIndex_err_finite h1]
    exact ⟨⟨fun _ => Or.inl hex, fun _ => by rw [herr]; rfl⟩,
      fun _ => herr, fun hn _ => absurd hex hn, fun hn _ _ => absurd hex hn⟩
  · have h1' : dist.any (fun x => x.isnan || x.isinf) = false := by simpa using h1
    have hnex1 : ¬ ∃ x ∈ dist, x.isnan = true ∨ x.isinf = true := fun h => h1 (hiff1.mpr h)
    by_cases h2 : dist.any (fun x => x.ltZero) = true
    · have hex := hiff2.mp h2
      have herr : (selectIndex dist g).1 =
          .error (.pfa "distribution must be non-negative") := by
        rw [selectIndex_err_nonneg h1' h2]
      exact ⟨⟨fun _ => Or.inr (Or.inl hex), fun _ => by rw [herr]; rfl⟩,
        fun hx => absurd hx hnex1, fun _ _ => herr, fun _ hn _ => absurd hex hn⟩
    · have h2' : dist.any (fun x => x.ltZero) = false := by simpa using h2
      have hnex2 : ¬ ∃ x ∈ dist, x.ltZero = true := fun h => h2 (hiff2.mpr h)
      by_cases h3 : (dist.map PyFloat.toRat).sum = 0
      · have herr : (selectIndex dist g).1 =
            .error (.pfa "distribution must be non-empty") := by
          rw [selectIndex_err_empty h1' h2' h3]
        exact ⟨⟨fun _ => Or.inr (Or.inr h3), fun _ => by rw [herr]; rfl⟩,
          fun hx => absurd hx hnex1, fun _ hx => absurd hx hnex2, fun _ _ _ => herr⟩
      · have hok : isErr (selectIndex dist g).1 = false := by
          rw [selectIndex_ok_of h1' h2' h3]
          rfl
        refine ⟨⟨fun habs => ?_, fun hd => ?_⟩,
          fun hx => absurd hx hnex1, fun _ hx => absurd hx hnex2,
          fun _ _ hx => absurd hx h3⟩
        · rw [hok] at habs; cases habs
        · rcases hd with hx | hx | hx
          · exact absurd hx hnex1
          · exact absurd hx hnex2
          · exact absurd hx h3

/-- pyGet at a valid non-negative index is plain list indexing. -/
theorem pyGet_of_lt {l : List α} {i : ℕ} (h : i < l.length) :
    pyGet l (i : ℤ) = some (l.get ⟨i, h⟩) := by
  unfold pyGet
  rw [if_pos (by exact_mod_cast Int.ofNat_nonneg i)]
  rw [Int.toNat_ofNat]
  exact List.get?_eq_get h

/-- The selection loop lands inside the distribution whenever the position is
non-negative and strictly below the total. -/
theorem histLoop_in_bounds (ws : List ℚ) (pos : ℚ)
    (h0 : 0 ≤ pos) (h1 : pos < ws.sum) :
    ∃ i : ℕ, i < ws.length ∧ histLoop pos (cumSumFrom 0 ws) 0 = some (i : ℤ) := by
  have hmem : ∃ y ∈ cumSumFrom 0 ws, pos < y := by
    refine ⟨lastD 0 (cumSumFrom 0 ws), lastD_mem 0 _ ?_, ?_⟩
    · obtain ⟨t, ht⟩ := cumSumFrom_eq_cons 0 ws
      simp [ht]
    · rw [lastD_cumSumFrom ws 0, zero_add]
      exact h1
  obtain ⟨j, hj, hloop, hlt, _⟩ := histLoop_spec pos (cumSumFrom 0 ws) 0 hmem
  have hj1 : 1 ≤ j := by
    by_contra hc
    have hj0 : j = 0 := by omega
    obtain ⟨t, ht⟩ := cumSumFrom_eq_cons 0 ws
    rw [hj0, ht] at hlt
    simp at hlt
    exact absurd hlt (not_lt.mpr h0)
  have hlen : (cumSumFrom 0 ws).length = ws.length + 1 := length_cumSumFrom ws 0
  refine ⟨j - 1, by omega, ?_⟩
  rw [hloop]
  congr 1
  omega

/-- C9: under the precondition that the uniform draw is non-negative and
strictly below the total weight, the selection loop of
RandomHistogram.selectIndex never falls through: it returns an index i with
0 <= i < length of the distribution; consequently the record variant's
element access distribution[index] is in bounds and the call returns the
selected record. -/
theorem C9_histogram_index_in_bounds :
    (∀ (ws : List ℚ) (pos : ℚ), 0 ≤ pos → pos < ws.sum →
      ∃ i : ℕ, i < ws.length ∧ histLoop pos (cumSumFrom 0 ws) 0 = some (i : ℤ)) ∧
    (∀ (recs : List (Value × ℚ)) (g : RandGen),
      (∀ r ∈ recs, 0 ≤ r.2) → 0 < (recs.map Prod.snd).sum →
      ∃ (i : ℕ) (hi : i < recs.length),
        randomHistogramRec (recs.map (fun r => (r.1, PyFloat.finite r.2))) g =
          (.ok (.record (recs.get ⟨i, hi⟩).1 (.finite (recs.get ⟨i, hi⟩).2)),
            (uniform 0 (recs.map Prod.snd).sum g).2)) := by
  refine ⟨histLoop_in_bounds, ?_⟩
  intro recs g hnn hpos
  set ws := recs.map Prod.snd with hws
  have hnn' : ∀ w ∈ ws, 0 ≤ w := by
    intro w hw
    obtain ⟨r, hr, rfl⟩ := List.mem_map.mp hw
    exact hnn r hr
  have hmaps : (recs.map (fun r => (r.1, PyFloat.finite r.2))).map Prod.snd =
      ws.map PyFloat.finite := by
    simp [hws, List.map_map]
  obtain ⟨hp0, hp1⟩ := uniform_bounds hpos g
  obtain ⟨i, hi, hloop⟩ :=
    histLoop_in_bounds ws (uniform 0 ws.sum g).1 hp0 hp1
  have hlen : i < recs.length := by
    rw [hws] at hi
    simpa using hi
  refine ⟨i, hlen, ?_⟩
  unfold randomHistogramRec
  rw [hmaps, selectIndex_ok ws g hnn' hpos, hloop]
  have hlen2 : i < (recs.map (fun r => (r.1, PyFloat.finite r.2))).length := by
    simpa using hlen
  simp [pyGet_of_lt hlen2, List.get_eq_getElem, List.getElem_map]

/-! rand.int / rand.long with explicit bounds. -/

theorem randomInt2_lt {low high : ℤ} (h : low < high) (g : RandGen) :
    ∃ v, randomInt2 low high g = (.ok (.int v), ⟨g.stream, g.pos + 1⟩) ∧
      low ≤ v ∧ v < high := by
  obtain ⟨v, hv, hb1, hb2⟩ := @randint_bounds low (high - 1) (by omega) g
  refine ⟨v, ?_, hb1, by omega⟩
  unfold randomInt2
  rw [if_neg (not_le.mpr h), hv]

theorem randomLong2_lt {low high : ℤ} (h : low < high) (g : RandGen) :
    ∃ v, randomLong2 low high g = (.ok (.int v), ⟨g.stream, g.pos + 1⟩) ∧
      low ≤ v ∧ v < high := by
  obtain ⟨v, hv, hb1, hb2⟩ := @randint_bounds low (high - 1) (by omega) g
  refine ⟨v, ?_, hb1, by omega⟩
  unfold randomLong2
  rw [if_neg (not_le.mpr h), hv]

/-- C2: rand.int(low, high) and rand.long(low, high) raise InvalidArgument
exactly when high <= low (including high == low); for low < high they return
an integer in the half-open interval from low to high and consume one draw,
every value of the interval is attainable by some generator, and in
particular int(low = 5, high = 6) always returns 5. -/
theorem C2_int_long_half_open (low high : ℤ) (g : RandGen) :
    ((randomInt2 low high g).1 = .error (.pfa "high must be greater than low") ↔
      high ≤ low) ∧
    ((randomLong2 low high g).1 = .error (.pfa "high must be greater than low") ↔
      high ≤ low) ∧
    (low < high → ∃ v, randomInt2 low high g =
      (.ok (.int v), ⟨g.stream, g.pos + 1⟩) ∧ low ≤ v ∧ v < high) ∧
    (low < high → ∃ v, randomLong2 low high g =
      (.ok (.int v), ⟨g.stream, g.pos + 1⟩) ∧ low ≤ v ∧ v < high) ∧
    (∀ v, low ≤ v → v < high →
      ∃ g' : RandGen, (randomInt2 low high g').1 = .ok (.int v)) ∧
    (∀ g' : RandGen, (randomInt2 5 6 g').1 = .ok (.int 5)) := by
  refine ⟨?_, ?_, fun h => randomInt2_lt h g, fun h => randomLong2_lt h g, ?_, ?_⟩
  · constructor
    · intro herr
      by_contra hc
      obtain ⟨v, hv, _, _⟩ := randomInt2_lt (not_le.mp hc) g
      rw [hv] at herr
      cases herr
    · intro h
      unfold randomInt2
      rw [if_pos h]
  · constructor
    · intro herr
      by_contra hc
      obtain ⟨v, hv, _, _⟩ := randomLong2_lt (not_le.mp hc) g
      rw [hv] at herr
      cases herr
    · intro h
      unfold randomLong2
      rw [if_pos h]
  · intro v hv1 hv2
    have h : low < high := by omega
    refine ⟨⟨fun _ => (v - low).toNat, 0⟩, ?_⟩
    have harith : low +
        (((v - low).toNat : ℕ) : ℤ) % (high - 1 - low + 1) = v := by
      rw [Int.toNat_of_nonneg (by omega), Int.emod_eq_of_lt (by omega) (by omega)]
      omega
    unfold randomInt2
    rw [if_neg (not_le.mpr h), randint_ok (by omega)]
    simp only [harith]
  · intro g'
    obtain ⟨v, hv, h1, h2⟩ := @randomInt2_lt 5 6 (by norm_num) g'
    rw [hv]
    have hv5 : v = 5 := by omega
    simp [hv5]

/-- Closed witness for C2 at low = 5, high = 6. -/
theorem C2_int_long_half_open_witness :
    (randomInt2 5 6 ⟨fun _ => 0, 0⟩).1 = .ok (.int 5) :=
  (C2_int_long_half_open 5 6 ⟨fun _ => 0, 0⟩).2.2.2.2.2 ⟨fun _ => 0, 0⟩

/-! Generic facts about the draw-k-times loop. -/

theorem repDraw_err_step {f : RandGen → (Except PyErr α) × RandGen} {k : ℕ}
    {g g' : RandGen} {e : PyErr} (he : f g = (.error e, g')) :
    repDraw f (k + 1) g = (.error e, g') := by
  rw [repDraw, he]

theorem repDraw_ok_step {f : RandGen → (Except PyErr α) × RandGen} {k : ℕ}
    {g g' : RandGen} {v : α} (hv : f g = (.ok v, g')) :
    repDraw f (k + 1) g =
      match repDraw f k g' with
      | (.error e, g'') => (.error e, g'')
      | (.ok xs, g'') => (.ok (v :: xs), g'') := by
  rw [repDraw, hv]

theorem repDraw_ok {f : RandGen → (Except PyErr α) × RandGen} {P : α → Prop}
    (hf : ∀ g : RandGen, ∃ v, f g = (.ok v, ⟨g.stream, g.pos + 1⟩) ∧ P v) :
    ∀ (k : ℕ) (g : RandGen), ∃ vs, repDraw f k g =
      (.ok vs, ⟨g.stream, g.pos + k⟩) ∧ vs.length = k ∧ ∀ v ∈ vs, P v := by
  intro k
  induction k with
  | zero =>
    intro g
    exact ⟨[], rfl, rfl, by simp⟩
  | succ k ih =>
    intro g
    obtain ⟨v, hv, hP⟩ := hf g
    obtain ⟨vs, hvs, hlen, hall⟩ := ih ⟨g.stream, g.pos + 1⟩
    refine ⟨v :: vs, ?_, by simp [hlen], ?_⟩
    · rw [repDraw_ok_step hv, hvs]
      have harr : g.pos + 1 + k = g.pos + (k + 1) := by omega
      rw [harr]
    · intro c hc
      rcases List.mem_cons.mp hc with rfl | hc'
      · exact hP
      · exact hall c hc'

/-! The no-population form of rand.string. -/

theorem drawUnichr_ok {a b : ℤ} (h : a ≤ b) (h0 : 0 ≤ a) (h1 : b ≤ 1114111)
    (g : RandGen) :
    ∃ c : ℕ, drawUnichr a b g = (.ok c, ⟨g.stream, g.pos + 1⟩) ∧
      a ≤ (c : ℤ) ∧ (c : ℤ) ≤ b := by
  obtain ⟨v, hv, hb1, hb2⟩ := @randint_bounds a b h g
  have hun : unichrE v = Except.ok v.toNat := by
    unfold unichrE
    rw [if_pos ⟨by omega, by omega⟩]
  refine ⟨v.toNat, ?_, by rw [Int.toNat_of_nonneg (by omega)]; exact hb1,
    by rw [Int.toNat_of_nonneg (by omega)]; exact hb2⟩
  unfold drawUnichr
  rw [hv]
  show (match unichrE v with
    | Except.ok c => ((Except.ok c : Except PyErr ℕ), (⟨g.stream, g.pos + 1⟩ : RandGen))
    | Except.error e => (Except.error e, (⟨g.stream, g.pos + 1⟩ : RandGen))) =
    (Except.ok v.toNat, (⟨g.stream, g.pos + 1⟩ : RandGen))
  rw [hun]

theorem randomString1_ok {size : ℤ} (h : 0 < size) (g : RandGen) :
    ∃ cs : List ℕ, randomString1 size g =
      (.ok (.str cs), ⟨g.stream, g.pos + size.toNat⟩) ∧
      cs.length = size.toNat ∧ ∀ c ∈ cs, 1 ≤ c ∧ c ≤ 55296 := by
  have hf : ∀ g' : RandGen, ∃ c : ℕ,
      drawUnichr 1 55296 g' = (.ok c, ⟨g'.stream, g'.pos + 1⟩) ∧
      (1 ≤ c ∧ c ≤ 55296) := by
    intro g'
    obtain ⟨c, hc, hcb1, hcb2⟩ :=
      @drawUnichr_ok 1 55296 (by norm_num) (by norm_num) (by norm_num) g'
    exact ⟨c, hc, by omega, by omega⟩
  obtain ⟨cs, hcs, hlen, hall⟩ := repDraw_ok hf size.toNat g
  refine ⟨cs, ?_, hlen, hall⟩
  unfold randomString1
  rw [if_neg (by omega), hcs]

/-- C3 counterexample: with the raw draw 55295 the no-population rand.string
emits the code point 0xD800 = 55296 itself — a code point inside the
surrogate block [0xD800, 0xDFFF] — so the characters are not drawn from the
full Unicode code-point range excluding the surrogate boundary. -/
theorem C3_surrogate_boundary_counterexample :
    (randomString1 1 ⟨fun _ => 55295, 0⟩).1 = .ok (.str [55296]) ∧
    ¬ (∀ c ∈ [55296], c < 55296 ∨ 57344 ≤ c) := by
  constructor
  · rfl
  · intro hall
    have := hall 55296 (by simp)
    omega

/-- C3 (amended): for every size > 0, rand.string(size) returns a string of
exactly size characters whose code points lie between 1 and 0xD800
inclusive — the range reaches up to and including the surrogate boundary
0xD800 and never above it. -/
theorem C3_string_code_point_range (size : ℤ) (g : RandGen) (h : 0 < size) :
    ∃ cs : List ℕ, randomString1 size g =
      (.ok (.str cs), ⟨g.stream, g.pos + size.toNat⟩) ∧
      cs.length = size.toNat ∧ ∀ c ∈ cs, 1 ≤ c ∧ c ≤ 55296 :=
  randomString1_ok h g

/-- Closed witness for the amended C3 at size 1. -/
theorem C3_string_code_point_range_witness :
    ∃ cs : List ℕ, randomString1 1 ⟨fun _ => 0, 0⟩ =
      (.ok (.str cs), ⟨(⟨fun _ => 0, 0⟩ : RandGen).stream, 1⟩) ∧
      cs.length = 1 ∧ ∀ c ∈ cs, 1 ≤ c ∧ c ≤ 55296 :=
  C3_string_code_point_range 1 ⟨fun _ => 0, 0⟩ (by norm_num)

/-! Selection without replacement: the sampled elements occupy distinct
positions of the population, expressed as a sub-permutation. -/

theorem pickAt_some {l : List α} {j : ℕ} (h : j < l.length) :
    ∃ y rest, pickAt l j = some (y, rest) ∧ (y :: rest).Perm l := by
  induction l generalizing j with
  | nil => simp at h
  | cons x xs ih =>
    cases j with
    | zero => exact ⟨x, xs, rfl, List.Perm.refl _⟩
    | succ j' =>
      have hj' : j' < xs.length := by simpa using h
      obtain ⟨y, rest, hpk, hperm⟩ := ih hj'
      refine ⟨y, x :: rest, ?_, ?_⟩
      · rw [pickAt, hpk]
      · exact (List.Perm.swap x y rest).trans (hperm.cons x)

theorem sampleAux_spec :
    ∀ (k : ℕ) (pop : List Value) (g : RandGen), k ≤ pop.length →
      (sampleAux pop k g).1.length = k ∧ (sampleAux pop k g).1.Subperm pop := by
  intro k
  induction k with
  | zero => intro pop g _; exact ⟨rfl, List.nil_subperm⟩
  | succ k ih =>
    intro pop g h
    have hlen : 0 < pop.length := by omega
    have hj : g.stream g.pos % pop.length < pop.length := Nat.mod_lt _ hlen
    obtain ⟨y, rest, hpk, hperm⟩ := pickAt_some hj
    have hrest : rest.length = pop.length - 1 := by
      have := hperm.length_eq
      simp at this
      omega
    have hstep : sampleAux pop (k + 1) g =
        (y :: (sampleAux rest k ⟨g.stream, g.pos + 1⟩).1,
          (sampleAux rest k ⟨g.stream, g.pos + 1⟩).2) := by
      rw [sampleAux, RandGen.next_fst, RandGen.next_snd, hpk]
    obtain ⟨hl, hs⟩ := ih rest ⟨g.stream, g.pos + 1⟩ (by omega)
    rw [hstep]
    constructor
    · simp [hl]
    · exact ((List.subperm_cons y).mpr hs).trans hperm.subperm

theorem pySample_ok {pop : List Value} {k : ℤ} (h0 : 0 ≤ k)
    (h1 : k ≤ (pop.length : ℤ)) (g : RandGen) :
    pySample pop k g =
      (.ok (sampleAux pop k.toNat g).1, (sampleAux pop k.toNat g).2) := by
  unfold pySample
  rw [if_neg (by push_neg; exact ⟨by omega, by omega⟩)]

theorem randomSample_ok {pop : List Value} {k : ℤ} (hne : pop ≠ [])
    (h0 : 0 ≤ k) (hk : k ≤ (pop.length : ℤ)) (g : RandGen) :
    randomSample k pop g =
      (.ok (.arr (sampleAux pop k.toNat g).1), (sampleAux pop k.toNat g).2) := by
  unfold randomSample
  rw [if_neg (by simpa [List.length_eq_zero] using hne),
    if_neg (not_lt.mpr hk), pySample_ok h0 hk g]

/-- C4: rand.sample raises InvalidArgument for an empty population, raises
InvalidArgument when the requested size exceeds the population length, and
otherwise returns exactly size elements of the population drawn from
distinct positions (a sub-permutation of the population, never repeating a
position). -/
theorem C4_sample_distinct_positions (k : ℕ) (pop : List Value) (g : RandGen) :
    ((randomSample (k : ℤ) pop g).1 =
      .error (.pfa "population must not be empty") ↔ pop = []) ∧
    (pop ≠ [] → ((randomSample (k : ℤ) pop g).1 =
      .error (.pfa "population smaller than requested subsample") ↔
        pop.length < k)) ∧
    (pop ≠ [] → k ≤ pop.length →
      ∃ r g', randomSample (k : ℤ) pop g = (.ok (.arr r), g') ∧
        r.length = k ∧ r.Subperm pop) := by
  refine ⟨?_, ?_, ?_⟩
  · constructor
    · intro herr
      by_contra hne
      by_cases hk : pop.length < k
      · have : randomSample (k : ℤ) pop g =
            (.error (.pfa "population smaller than requested subsample"), g) := by
          unfold randomSample
          rw [if_neg (by simpa [List.length_eq_zero] using hne),
            if_pos (by exact_mod_cast hk)]
        rw [this] at herr
        simp at herr
      · rw [randomSample_ok hne (by omega) (by exact_mod_cast not_lt.mp hk) g]
          at herr
        cases herr
    · intro h
      subst h
      unfold randomSample
      simp
  · intro hne
    constructor
    · intro herr
      by_contra hk
      rw [randomSample_ok hne (by omega) (by exact_mod_cast not_lt.mp hk) g]
        at herr
      cases herr
    · intro hk
      unfold randomSample
      rw [if_neg (by simpa [List.length_eq_zero] using hne),
        if_pos (by exact_mod_cast hk)]
  · intro hne hk
    rw [randomSample_ok hne (by omega) (by exact_mod_cast hk) g]
    have htn : ((k : ℤ)).toNat = k := Int.toNat_natCast k
    obtain ⟨hl, hs⟩ := sampleAux_spec ((k : ℤ)).toNat pop g (by rw [htn]; exact hk)
    exact ⟨_, _, rfl, by rw [hl, htn], hs⟩

/-- Closed witness for C4 at size 1 over a two-element population. -/
theorem C4_sample_distinct_positions_witness :
    ∃ r g', randomSample (1 : ℤ) [Value.int 0, Value.int 1] ⟨fun _ => 0, 0⟩ =
      (.ok (.arr r), g') ∧ r.length = 1 ∧ r.Subperm [Value.int 0, Value.int 1] :=
  (C4_sample_distinct_positions 1 [Value.int 0, Value.int 1] ⟨fun _ => 0, 0⟩).2.2
    (by simp) (by norm_num)

/-! The uuid formatter. -/

theorem hexDigitChar_ge (d : ℕ) : 48 ≤ hexDigitChar d := by
  unfold hexDigitChar
  split <;> omega

theorem digits_len_le_of_lt_pow {w n : ℕ} (h : n < 16 ^ w) :
    (Nat.digits 16 n).length ≤ w := by
  by_cases hn : n = 0
  · subst hn
    simp
  · by_contra hc
    push_neg at hc
    have h1 : 16 ^ (Nat.digits 16 n).length ≤ 16 * n :=
      Nat.base_pow_length_digits_le 16 n (by norm_num) hn
    have h2 : (16 : ℕ) ^ (w + 1) ≤ 16 ^ (Nat.digits 16 n).length :=
      Nat.pow_le_pow_right (by norm_num) (by omega)
    have h3 : (16 : ℕ) ^ (w + 1) = 16 * 16 ^ w := by ring
    omega

theorem hexPad_len {w n : ℕ} (h : n < 16 ^ w) : (hexPad w n).length = w := by
  have hd : (Nat.digits 16 n).length ≤ w := digits_len_le_of_lt_pow h
  unfold hexPad
  simp
  omega

theorem hexPad_no_hyphen {w n : ℕ} : ∀ c ∈ hexPad w n, c ≠ 45 := by
  intro c hc
  unfold hexPad at hc
  rw [List.mem_map] at hc
  obtain ⟨d, _, rfl⟩ := hc
  have := hexDigitChar_ge d
  omega

/-- randomUUID written out: five fresh draws, fixed hyphens and the fixed
version and variant characters. -/
theorem randomUUID_eq (g : RandGen) :
    randomUUID g =
      (.ok (.str (hexPad 8 (g.stream g.pos % 2 ^ 32) ++ 45 ::
        (hexPad 4 (g.stream (g.pos + 1) % 2 ^ 16) ++ 45 :: 52 ::
        (hexPad 3 (g.stream (g.pos + 2) % 2 ^ 12) ++ 45 :: 56 ::
        (hexPad 3 (g.stream (g.pos + 3) % 2 ^ 12) ++ 45 ::
          hexPad 16 (g.stream (g.pos + 4) % 2 ^ 64)))))),
        ⟨g.stream, g.pos + 5⟩) := rfl

/-- C8: rand.uuid always succeeds, consumes exactly the five fresh draws of
32+16+12+12+64 random bits, and its output splits on hyphens into groups of
8, 4, 1+3, 1+3 and 16 hex characters in which the third group starts with
the fixed version character 4 (code point 52) and the fourth group starts
with the fixed variant character 8 (code point 56), regardless of the bits
drawn. -/
theorem C8_uuid_fixed_nibbles (g : RandGen) :
    ∃ A B C D E : List ℕ,
      A.length = 8 ∧ B.length = 4 ∧ C.length = 3 ∧ D.length = 3 ∧
      E.length = 16 ∧
      (∀ c ∈ A ++ B ++ C ++ D ++ E, c ≠ 45) ∧
      randomUUID g =
        (.ok (.str (A ++ 45 :: (B ++ 45 :: 52 :: (C ++ 45 :: 56 ::
          (D ++ 45 :: E))))), ⟨g.stream, g.pos + 5⟩) := by
  refine ⟨hexPad 8 (g.stream g.pos % 2 ^ 32),
    hexPad 4 (g.stream (g.pos + 1) % 2 ^ 16),
    hexPad 3 (g.stream (g.pos + 2) % 2 ^ 12),
    hexPad 3 (g.stream (g.pos + 3) % 2 ^ 12),
    hexPad 16 (g.stream (g.pos + 4) % 2 ^ 64),
    hexPad_len (by have := Nat.mod_lt (g.stream g.pos) (show 0 < 2 ^ 32 by norm_num); omega),
    hexPad_len (by have := Nat.mod_lt (g.stream (g.pos + 1)) (show 0 < 2 ^ 16 by norm_num); omega),
    hexPad_len (by have := Nat.mod_lt (g.stream (g.pos + 2)) (show 0 < 2 ^ 12 by norm_num); omega),
    hexPad_len (by have := Nat.mod_lt (g.stream (g.pos + 3)) (show 0 < 2 ^ 12 by norm_num); omega),
    hexPad_len (by have := Nat.mod_lt (g.stream (g.pos + 4)) (show 0 < 2 ^ 64 by norm_num); omega),
    ?_, randomUUID_eq g⟩
  intro c hc
  simp only [List.mem_append] at hc
  rcases hc with (((h | h) | h) | h) | h <;> exact hexPad_no_hyphen c h

/-- C10: the population forms of rand.string and rand.bytes lack the
empty-population guard of choice, choices and sample: with size 1 and an
empty population, evaluation reaches randint(0, -1) — an empty range — and
fails with a Python-level ValueError, not with a typed InvalidArgument
(PFARuntimeException). -/
theorem C10_empty_population_escapes_taxonomy :
    (randomString2 1 [] ⟨fun _ => 0, 0⟩).1 =
      .error (.valueError "empty range for randrange") ∧
    (randomBytes2 1 [] ⟨fun _ => 0, 0⟩).1 =
      .error (.valueError "empty range for randrange") ∧
    (∀ m, (randomString2 1 [] ⟨fun _ => 0, 0⟩).1 ≠ .error (.pfa m)) ∧
    (∀ m, (randomBytes2 1 [] ⟨fun _ => 0, 0⟩).1 ≠ .error (.pfa m)) := by
  have h1 : (randomString2 1 [] ⟨fun _ => 0, 0⟩).1 =
      .error (.valueError "empty range for randrange") := rfl
  have h2 : (randomBytes2 1 [] ⟨fun _ => 0, 0⟩).1 =
      .error (.valueError "empty range for randrange") := rfl
  refine ⟨h1, h2, ?_, ?_⟩
  · intro m hm
    rw [h1] at hm
    simp at hm
  · intro m hm
    rw [h2] at hm
    simp at hm

/-- C7: every rand.* call is a pure function of the call description and the
execution context's PRNG state, so two contexts seeded identically produce
identical output sequences — and identical final states — for an identical
sequence of rand.* calls. -/
theorem C7_determinism (calls : List RandCall) (g1 g2 : RandGen)
    (h : g1 = g2) :
    (runCalls calls g1).1 = (runCalls calls g2).1 ∧
    (runCalls calls g1).2 = (runCalls calls g2).2 := by
  subst h
  exact ⟨rfl, rfl⟩

/-- Closed witness for C7 on a concrete call sequence and seed. -/
theorem C7_determinism_witness :
    (runCalls [RandCall.rUuid, RandCall.rInt2 5 6] ⟨fun _ => 0, 0⟩).1 =
      (runCalls [RandCall.rUuid, RandCall.rInt2 5 6] ⟨fun _ => 0, 0⟩).1 ∧
    (runCalls [RandCall.rUuid, RandCall.rInt2 5 6] ⟨fun _ => 0, 0⟩).2 =
      (runCalls [RandCall.rUuid, RandCall.rInt2 5 6] ⟨fun _ => 0, 0⟩).2 :=
  C7_determinism [RandCall.rUuid, RandCall.rInt2 5 6] ⟨fun _ => 0, 0⟩
    ⟨fun _ => 0, 0⟩ rfl

/-! Which errors the shared draw helpers can produce: never a
PFARuntimeException — those come only from the guards that run before any
draw is consumed. -/

theorem randint_no_pfa (a b : ℤ) (g : RandGen) (m : String) :
    (randint a b g).1 ≠ .error (.pfa m) := by
  unfold randint
  split <;> simp [RandGen.next]

theorem drawElem_no_pfa (pop : List α) (g : RandGen) (m : String) :
    (drawElem pop g).1 ≠ .error (.pfa m) := by
  unfold drawElem
  rcases hr : randint 0 ((pop.length : ℤ) - 1) g with ⟨r, g'⟩
  cases r with
  | error e =>
    have hne := randint_no_pfa 0 ((pop.length : ℤ) - 1) g m
    rw [hr] at hne
    simpa using hne
  | ok i =>
    cases hp : pyGet pop i <;> simp [hp]

theorem drawUnichr_no_pfa (a b : ℤ) (g : RandGen) (m : String) :
    (drawUnichr a b g).1 ≠ .error (.pfa m) := by
  unfold drawUnichr
  rcases hr : randint a b g with ⟨r, g'⟩
  cases r with
  | error e =>
    have hne := randint_no_pfa a b g m
    rw [hr] at hne
    simpa using hne
  | ok i =>
    by_cases hi : 0 ≤ i ∧ i ≤ 1114111
    · have hu : unichrE i = Except.ok i.toNat := by
        unfold unichrE
        rw [if_pos hi]
      simp [hu]
    · have hu : unichrE i = Except.error (.valueError "unichr arg not in range") := by
        unfold unichrE
        rw [if_neg hi]
      simp [hu]

theorem drawChr_no_pfa (a b : ℤ) (g : RandGen) (m : String) :
    (drawChr a b g).1 ≠ .error (.pfa m) := by
  unfold drawChr
  rcases hr : randint a b g with ⟨r, g'⟩
  cases r with
  | error e =>
    have hne := randint_no_pfa a b g m
    rw [hr] at hne
    simpa using hne
  | ok i =>
    by_cases hi : 0 ≤ i ∧ i ≤ 255
    · have hu : chrE i = Except.ok i.toNat := by
        unfold chrE
        rw [if_pos hi]
      simp [hu]
    · have hu : chrE i = Except.error (.valueError "chr arg not in range") := by
        unfold chrE
        rw [if_neg hi]
      simp [hu]

theorem repDraw_no_pfa {f : RandGen → (Except PyErr α) × RandGen}
    (hf : ∀ (g : RandGen) (m : String), (f g).1 ≠ .error (.pfa m)) :
    ∀ (k : ℕ) (g : RandGen) (m : String),
      (repDraw f k g).1 ≠ .error (.pfa m) := by
  intro k
  induction k with
  | zero =>
    intro g m h
    simp [repDraw] at h
  | succ k ih =>
    intro g m h
    rcases hfg : f g with ⟨r, g'⟩
    cases r with
    | error e =>
      rw [repDraw_err_step hfg] at h
      simp at h
      have hne := hf g m
      rw [hfg] at hne
      simp at hne
      exact hne h
    | ok x =>
      rw [repDraw_ok_step hfg] at h
      rcases hrd : repDraw f k g' with ⟨r2, g''⟩
      rw [hrd] at h
      cases r2 with
      | error e =>
        simp at h
        have hne := ih g' m
        rw [hrd] at hne
        simp at hne
        exact hne h
      | ok xs =>
        simp at h

/-- C6: whenever a rand.* call raises an InvalidArgument
(PFARuntimeException), the execution context's PRNG state is unchanged:
every such argument guard runs before any random draw is consumed. -/
theorem C6_invalid_argument_preserves_state (c : RandCall) (g : RandGen)
    (m : String) (h : (applyCall c g).1 = .error (.pfa m)) :
    (applyCall c g).2 = g := by
  cases c with
  | rInt0 =>
    exfalso
    obtain ⟨v, hv, _, _⟩ := @randint_bounds INT_MIN_VALUE INT_MAX_VALUE
      (by norm_num [INT_MIN_VALUE, INT_MAX_VALUE]) g
    simp only [applyCall] at h
    unfold randomInt0 at h
    rw [hv] at h
    simp at h
  | rLong0 =>
    exfalso
    obtain ⟨v, hv, _, _⟩ := @randint_bounds LONG_MIN_VALUE LONG_MAX_VALUE
      (by norm_num [LONG_MIN_VALUE, LONG_MAX_VALUE]) g
    simp only [applyCall] at h
    unfold randomLong0 at h
    rw [hv] at h
    simp at h
  | rInt2 low high =>
    simp only [applyCall] at h ⊢
    unfold randomInt2 at h ⊢
    by_cases hc : high ≤ low
    · rw [if_pos hc]
    · exfalso
      obtain ⟨v, hv, _, _⟩ := @randint_bounds low (high - 1) (by omega) g
      rw [if_neg hc, hv] at h
      simp at h
  | rLong2 low high =>
    simp only [applyCall] at h ⊢
    unfold randomLong2 at h ⊢
    by_cases hc : high ≤ low
    · rw [if_pos hc]
    · exfalso
      obtain ⟨v, hv, _, _⟩ := @randint_bounds low (high - 1) (by omega) g
      rw [if_neg hc, hv] at h
      simp at h
  | rFloat low high =>
    simp only [applyCall] at h ⊢
    unfold randomFloat at h ⊢
    by_cases hc : high ≤ low
    · rw [if_pos hc]
    · exfalso
      rw [if_neg hc] at h
      rcases hu : uniform low high g with ⟨x, g'⟩
      rw [hu] at h
      simp at h
  | rDouble low high =>
    simp only [applyCall] at h ⊢
    unfold randomDouble at h ⊢
    by_cases hc : high ≤ low
    · rw [if_pos hc]
    · exfalso
      rw [if_neg hc] at h
      rcases hu : uniform low high g with ⟨x, g'⟩
      rw [hu] at h
      simp at h
  | rChoice population =>
    simp only [applyCall] at h ⊢
    unfold randomChoice at h ⊢
    by_cases hc : population.length = 0
    · rw [if_pos hc]
    · exfalso
      rw [if_neg hc] at h
      rcases hd : drawElem population g with ⟨r, g'⟩
      rw [hd] at h
      cases r with
      | error e =>
        have hne := drawElem_no_pfa population g m
        rw [hd] at hne
        simp at h hne
        exact hne h
      | ok x => simp at h
  | rChoices size population =>
    simp only [applyCall] at h ⊢
    unfold randomChoices at h ⊢
    by_cases hc : population.length = 0
    · rw [if_pos hc]
    · exfalso
      rw [if_neg hc] at h
      rcases hrd : repDraw (drawElem population) size.toNat g with ⟨r, g'⟩
      rw [hrd] at h
      cases r with
      | error e =>
        have hne := repDraw_no_pfa (drawElem_no_pfa population) size.toNat g m
        rw [hrd] at hne
        simp at h hne
        exact hne h
      | ok xs => simp at h
  | rSample size population =>
    simp only [applyCall] at h ⊢
    unfold randomSample at h ⊢
    by_cases h1 : population.length = 0
    · rw [if_pos h1]
    · rw [if_neg h1] at h ⊢
      by_cases h2 : (population.length : ℤ) < size
      · rw [if_pos h2]
      · exfalso
        rw [if_neg h2] at h
        unfold pySample at h
        by_cases h3 : size < 0 ∨ (population.length : ℤ) < size
        · rw [if_pos h3] at h
          simp at h
        · rw [if_neg h3] at h
          rcases hs : sampleAux population size.toNat g with ⟨l, g'⟩
          rw [hs] at h
          simp at h
  | rHistogram distribution =>
    simp only [applyCall] at h ⊢
    unfold randomHistogram at h ⊢
    rcases hs : selectIndex distribution g with ⟨r, g'⟩
    rw [hs] at h
    cases r with
    | error e =>
      have hst : (selectIndex distribution g).2 = g :=
        selectIndex_err_state (by rw [hs])
      rw [hs] at hst
      simpa using hst
    | ok oi =>
      exfalso
      cases oi with
      | none => simp at h
      | some i => simp at h
  | rHistogramRec distribution =>
    simp only [applyCall] at h ⊢
    unfold randomHistogramRec at h ⊢
    rcases hs : selectIndex (distribution.map Prod.snd) g with ⟨r, g'⟩
    rw [hs] at h
    cases r with
    | error e =>
      have hst : (selectIndex (distribution.map Prod.snd) g).2 = g :=
        selectIndex_err_state (by rw [hs])
      rw [hs] at hst
      simpa using hst
    | ok oi =>
      exfalso
      cases oi with
      | none => simp at h
      | some i =>
        simp at h
        rcases hp : pyGet distribution i with _ | x
        · rw [hp] at h
          simp at h
        · rw [hp] at h
          simp at h
  | rString1 size =>
    simp only [applyCall] at h ⊢
    unfold randomString1 at h ⊢
    by_cases hc : size ≤ 0
    · rw [if_pos hc]
    · exfalso
      rw [if_neg hc] at h
      rcases hrd : repDraw (drawUnichr 1 55296) size.toNat g with ⟨r, g'⟩
      rw [hrd] at h
      cases r with
      | error e =>
        have hne := repDraw_no_pfa (drawUnichr_no_pfa 1 55296) size.toNat g m
        rw [hrd] at hne
        simp at h hne
        exact hne h
      | ok cs => simp at h
  | rString2 size population =>
    simp only [applyCall] at h ⊢
    unfold randomString2 at h ⊢
    by_cases hc : size ≤ 0
    · rw [if_pos hc]
    · exfalso
      rw [if_neg hc] at h
      rcases hrd : repDraw (drawElem population) size.toNat g with ⟨r, g'⟩
      rw [hrd] at h
      cases r with
      | error e =>
        have hne := repDraw_no_pfa (drawElem_no_pfa population) size.toNat g m
        rw [hrd] at hne
        simp at h hne
        exact hne h
      | ok cs => simp at h
  | rString3 size low high =>
    simp only [applyCall] at h ⊢
    unfold randomString3 at h ⊢
    by_cases hc : size ≤ 0
    · rw [if_pos hc]
    · rw [if_neg hc] at h ⊢
      by_cases hlh : high ≤ low
      · rw [if_pos hlh]
      · exfalso
        rw [if_neg hlh] at h
        rcases hrd : repDraw (drawUnichr low (high - 1)) size.toNat g with ⟨r, g'⟩
        rw [hrd] at h
        cases r with
        | error e =>
          have hne := repDraw_no_pfa (drawUnichr_no_pfa low (high - 1)) size.toNat g m
          rw [hrd] at hne
          simp at h hne
          exact hne h
        | ok cs => simp at h
  | rBytes1 size =>
    simp only [applyCall] at h ⊢
    unfold randomBytes1 at h ⊢
    by_cases hc : size ≤ 0
    · rw [if_pos hc]
    · exfalso
      rw [if_neg hc] at h
      rcases hrd : repDraw (drawChr 0 255) size.toNat g with ⟨r, g'⟩
      rw [hrd] at h
      cases r with
      | error e =>
        have hne := repDraw_no_pfa (drawChr_no_pfa 0 255) size.toNat g m
        rw [hrd] at hne
        simp at h hne
        exact hne h
      | ok bs => simp at h
  | rBytes2 size population =>
    simp only [applyCall] at h ⊢
    unfold randomBytes2 at h ⊢
    by_cases hc : size ≤ 0
    · rw [if_pos hc]
    · exfalso
      rw [if_neg hc] at h
      rcases hrd : repDraw (drawElem population) size.toNat g with ⟨r, g'⟩
      rw [hrd] at h
      cases r with
      | error e =>
        have hne := repDraw_no_pfa (drawElem_no_pfa population) size.toNat g m
        rw [hrd] at hne
        simp at h hne
        exact hne h
      | ok bs => simp at h
  | rBytes3 size low high =>
    simp only [applyCall] at h ⊢
    unfold randomBytes3 at h ⊢
    by_cases hc : size ≤ 0
    · rw [if_pos hc]
    · rw [if_neg hc] at h ⊢
      by_cases hlh : high ≤ low
      · rw [if_pos hlh]
      · exfalso
        rw [if_neg hlh] at h
        rcases hrd : repDraw (drawChr low (high - 1)) size.toNat g with ⟨r, g'⟩
        rw [hrd] at h
        cases r with
        | error e =>
          have hne := repDraw_no_pfa (drawChr_no_pfa low (high - 1)) size.toNat g m
          rw [hrd] at hne
          simp at h hne
          exact hne h
        | ok bs => simp at h
  | rUuid =>
    exfalso
    simp only [applyCall] at h
    rw [randomUUID_eq g] at h
    simp at h
  | rGaussian mu sigma =>
    exfalso
    simp only [applyCall] at h
    unfold randomGaussian at h
    rcases hg : gauss mu sigma g with ⟨x, g'⟩
    rw [hg] at h
    simp at h

/-- Closed witness for C6: the failing call int(5, 5) leaves the
generator state untouched. -/
theorem C6_invalid_argument_preserves_state_witness :
    (applyCall (RandCall.rInt2 5 5) ⟨fun _ => 0, 0⟩).2 = ⟨fun _ => 0, 0⟩ :=
  C6_invalid_argument_preserves_state (RandCall.rInt2 5 5) ⟨fun _ => 0, 0⟩
    "high must be greater than low" rfl

/-- Closed witness for C1: the boundary draw at position 1 on [1, 1, 2]. -/
theorem C1_histogram_cumulative_tie_break_witness :
    (selectIndex ([1, 1, 2].map PyFloat.finite) ⟨fun _ => 2 ^ 51, 0⟩).1 =
      .ok (some 1) :=
  (C1_histogram_cumulative_tie_break [1, 1, 2] ⟨fun _ => 0, 0⟩
    (by
      intro w hw
      simp only [List.mem_cons, List.not_mem_nil, or_false] at hw
      rcases hw with rfl | rfl | rfl <;> norm_num)
    (by norm_num)).2.1

/-- Closed witness for C5: a NaN weight raises the finiteness error. -/
theorem C5_histogram_error_taxonomy_witness :
    (selectIndex [PyFloat.nan] ⟨fun _ => 0, 0⟩).1 =
      .error (.pfa "distribution must be finite") :=
  (C5_histogram_error_taxonomy [PyFloat.nan] ⟨fun _ => 0, 0⟩).2.1
    ⟨PyFloat.nan, by simp, Or.inl rfl⟩

/-- Closed witness for C9: a position of 1 inside total 4 lands at index 1. -/
theorem C9_histogram_index_in_bounds_witness :
    ∃ i : ℕ, i < ([1, 1, 2] : List ℚ).length ∧
      histLoop 1 (cumSumFrom 0 ([1, 1, 2] : List ℚ)) 0 = some (i : ℤ) :=
  C9_histogram_index_in_bounds.1 [1, 1, 2] 1 (by norm_num) (by norm_num)
